import Mathlib

/-!
Shallow embedding of the curriculum-builder core: the Pinecone retrieval tool
(`src/education_ai_system/tools/pinecone_exa_tools.py`), the week-extraction
validators (`src/education_ai_system/utils/validators.py`) and the subject
normalizer (`src/education_ai_system/utils/subject_mapper.py`), together with
theorems settling the specification claims about them.

Python strings are modelled as `String`/`List Char`; Python `None`-able or
possibly-missing dict entries as `Option`; Python exceptions as `Except String`;
Pinecone float similarity scores as `Rat`.  The external collaborators (index
stats call, embedding model, index query) are passed in as `Except`-valued
oracles, universally quantified in the theorems.
-/

namespace Curriculum

/-! ## Python string primitives over `List Char` -/

/-- Python whitespace for `str.strip` and the regex class `\s` (ASCII range):
space, tab, newline, carriage return, vertical tab, form feed. -/
def isSpaceChar (c : Char) : Bool :=
  c = ' ' || c = '\t' || c = '\n' || c = '\x0d' || c = '\x0b' || c = '\x0c'

/-- Python `str.lower` (ASCII). -/
def lowerL (l : List Char) : List Char := l.map Char.toLower

/-- Python `str.strip()`: drop whitespace from both ends. -/
def stripL (l : List Char) : List Char :=
  ((l.dropWhile isSpaceChar).reverse.dropWhile isSpaceChar).reverse

/-- Python `str.split(sep)` for a one-character separator. -/
def splitChar (sep : Char) : List Char → List (List Char)
  | [] => [[]]
  | c :: t =>
    match splitChar sep t with
    | [] => if c = sep then [[], []] else [[c]]
    | h :: r => if c = sep then [] :: h :: r else (c :: h) :: r

/-- Helper of `splitWsL`: `cur` accumulates the current word in reverse. -/
def splitWsAux (cur : List Char) : List Char → List (List Char)
  | [] => if cur.isEmpty then [] else [cur.reverse]
  | c :: t =>
    if isSpaceChar c then
      if cur.isEmpty then splitWsAux [] t else cur.reverse :: splitWsAux [] t
    else splitWsAux (c :: cur) t

/-- Python `str.split()` with no separator: split on whitespace runs,
producing no empty fields. -/
def splitWsL (l : List Char) : List (List Char) := splitWsAux [] l

/-- Index of the first occurrence of `sub` in `s` (Python `str.find`,
as an `Option` instead of `-1`). -/
def findIdx (sub : List Char) : List Char → Option Nat
  | [] => if sub.isPrefixOf ([] : List Char) then some 0 else none
  | c :: t =>
    if sub.isPrefixOf (c :: t) then some 0
    else (findIdx sub t).map (· + 1)

/-- Python `str.find(sub, start)` as an `Option`. -/
def findIdxFrom (sub s : List Char) (start : Nat) : Option Nat :=
  (findIdx sub (s.drop start)).map (· + start)

/-- Python `sub in s` substring test. -/
def containsSub (s sub : List Char) : Bool := (findIdx sub s).isSome

/-- Numeric value of a digit string (Python `int` on an all-digit string). -/
def digitsToNat (l : List Char) : Nat :=
  l.foldl (fun a c => a * 10 + (c.toNat - 48)) 0

/-- First maximal decimal-digit run in the text
(first match of the regex `\d+`, as Python `re.findall` returns it). -/
def firstDigitRun : List Char → Option (List Char)
  | [] => none
  | c :: t =>
    if c.isDigit then some ((c :: t).takeWhile Char.isDigit)
    else firstDigitRun t

/-- Helper of `digitRuns`: `cur` accumulates the current digit run in
reverse. -/
def digitRunsAux (cur : List Char) : List Char → List (List Char)
  | [] => if cur.isEmpty then [] else [cur.reverse]
  | c :: t =>
    if c.isDigit then digitRunsAux (c :: cur) t
    else if cur.isEmpty then digitRunsAux [] t else cur.reverse :: digitRunsAux [] t

/-- All maximal decimal-digit runs in the text (Python `re.findall(r'\d+', s)`). -/
def digitRuns (l : List Char) : List (List Char) := digitRunsAux [] l

/-- Python `str.isdigit` on a string (`False` on the empty string). -/
def isDigitL (l : List Char) : Bool := !l.isEmpty && l.all Char.isDigit

/-! ## Grade matcher (`PineconeRetrievalTool._extract_grade_number`,
`_extract_grade_range`, `_grade_matches`) -/

/-- The word-to-number table of `_extract_grade_number`, in its Python
insertion (iteration) order. -/
def word_to_num : List (List Char × Nat) :=
  [("one".data, 1), ("two".data, 2), ("three".data, 3), ("four".data, 4),
   ("five".data, 5), ("six".data, 6), ("seven".data, 7), ("eight".data, 8),
   ("nine".data, 9)]

/-- First number word of `word_to_num` occurring as a substring. -/
def firstWordNum (t : List Char) : List (List Char × Nat) → Option Nat
  | [] => none
  | (w, n) :: rest => if containsSub t w then some n else firstWordNum t rest

/-- `_extract_grade_number`: lower and strip the text, return the first digit
run as a number, else the first matching number word, else `None`. -/
def extract_grade_number (grade_text : String) : Option Nat :=
  let t := stripL (lowerL grade_text.data)
  match firstDigitRun t with
  | some ds => some (digitsToNat ds)
  | none => firstWordNum t word_to_num

/-- `_extract_grade_range`: the first two digit runs when there are at least
two, else `None` (the Python version returns the pair `(None, None)`). -/
def extract_grade_range (grade_text : String) : Option (Nat × Nat) :=
  match digitRuns grade_text.data with
  | a :: b :: _ => some (digitsToNat a, digitsToNat b)
  | _ => none

/-- `_grade_matches`: exact equality short-circuit, then numeric comparison,
range containment when the stored grade contains a hyphen.  The Python
truthiness tests `if start_num and end_num` and `if stored_num` are modelled
as explicit nonzero tests. -/
def grade_matches (user_grade stored_grade : String) : Bool :=
  if user_grade = stored_grade then true
  else
    match extract_grade_number user_grade with
    | none => false
    | some un =>
      if stored_grade.data.contains '-' then
        match extract_grade_range stored_grade with
        | some (a, b) => if a ≠ 0 ∧ b ≠ 0 then decide (a ≤ un ∧ un ≤ b) else false
        | none => false
      else
        match extract_grade_number stored_grade with
        | some sn => if sn ≠ 0 then decide (un = sn) else false
        | none => false

/-! ## Subject normalizer (`utils/subject_mapper.py`) -/

/-- Modelled from the spec: the alias table `config/subject_mappings.yaml` is
not under `src/`; only its loader is.  The spec describes it as a mapping of
many surface forms to one canonical name and attests the single concrete
alias `"math" -> "mathematics"` (end-to-end scenario of the testable
properties), with `"mathematics"` a standard subject. -/
def subject_aliases : List (String × String) := [("math", "mathematics")]

/-- Modelled from the spec: the canonical subject set of
`config/subject_mappings.yaml`; the spec attests `"mathematics"`. -/
def standard_subjects : List String := ["mathematics"]

/-- `SubjectMapper.normalize_subject`: lower, strip, replace underscores with
spaces, then alias lookup; already-standard and unknown subjects are both
returned unchanged (the last two Python branches are kept separate to mirror
the source even though both return the canonicalized input). -/
def normalize_subject (subject : String) : String :=
  let s := stripL (lowerL subject.data)
  let s := s.map (fun c => if c = '_' then ' ' else c)
  let t : String := ⟨s⟩
  match subject_aliases.lookup t with
  | some canonical => canonical
  | none => if standard_subjects.contains t then t else t

/-! ## Week extractors (`utils/validators.py`) -/

/-- `extract_week_content`: slice from the first occurrence of
`"WEEK {week}"` up to the next occurrence of `"WEEK "` after it (Python
slicing `content[start:end]` / `content[start:]`). -/
def extract_week_content (content week : String) : String :=
  let c := content.data
  let header := "WEEK ".data ++ week.data
  match findIdx header c with
  | none => ""
  | some s =>
    match findIdxFrom "WEEK ".data c (s + header.length) with
    | none => ⟨c.drop s⟩
    | some e => ⟨(c.drop s).take (e - s)⟩

/-- First strategy of `extract_week_topic`: the first line containing the
week digits bounded by pipes (`"| w |"` or `"|w|"`) whose pipe-split has at
least three nonempty stripped cells yields its second cell. -/
def weekTopicRows (cw : List Char) : List (List Char) → Option (List Char)
  | [] => none
  | l :: ls =>
    if containsSub l ('|' :: ' ' :: (cw ++ " |".data)) ||
       containsSub l ('|' :: (cw ++ "|".data)) then
      let parts := ((splitChar '|' l).map stripL).filter (· ≠ [])
      if parts.length ≥ 3 then some (parts.getD 1 [])
      else weekTopicRows cw ls
    else weekTopicRows cw ls

/-- Second strategy of `extract_week_topic`: on each line containing the week
digits, `line.split(clean_week, 1)[1]`, stripped, truncated at the next pipe;
returned when nonempty.  With an all-digits-removed (empty) week this is
Python `str.split` with an empty separator, which raises `ValueError`. -/
def weekTopicLoose (cw : List Char) : List (List Char) → Except String (Option (List Char))
  | [] => .ok none
  | l :: ls =>
    if containsSub l cw then
      if cw.isEmpty then .error "ValueError: empty separator"
      else
        match findIdx cw l with
        | none => weekTopicLoose cw ls
        | some i =>
          let topic_part := stripL (l.drop (i + cw.length))
          let topic_part :=
            if topic_part.contains '|' then topic_part.takeWhile (· ≠ '|')
            else topic_part
          if topic_part ≠ [] then .ok (some topic_part) else weekTopicLoose cw ls
    else weekTopicLoose cw ls

/-- Python `line.split("TOPIC:")[1]`: the text between the first and second
occurrence of the marker (or to the end of the line). -/
def afterTopicMarker (l : List Char) : List Char :=
  match findIdx "TOPIC:".data l with
  | none => []
  | some i =>
    let rest := l.drop (i + "TOPIC:".data.length)
    match findIdx "TOPIC:".data rest with
    | none => rest
    | some j => rest.take j

/-- `extract_week_topic`: digit-normalize the week, then the table strategy,
the loose line strategy (which can raise on a digit-less week), the
`"TOPIC:"` marker strategy, and the `"General Topic"` fallback. -/
def extract_week_topic (scheme_content week : String) : Except String String :=
  let cw := week.data.filter Char.isDigit
  let lines := splitChar '\n' scheme_content.data
  match weekTopicRows cw lines with
  | some t => .ok ⟨t⟩
  | none =>
    match weekTopicLoose cw lines with
    | .error e => .error e
    | .ok (some t) => .ok ⟨t⟩
    | .ok none =>
      if containsSub scheme_content.data "TOPIC:".data then
        match lines.find? (fun l => containsSub l "TOPIC:".data) with
        | some l => .ok ⟨stripL (afterTopicMarker l)⟩
        | none => .ok "General Topic"
      else .ok "General Topic"

/-- The regex word-character class `\w` (ASCII range). -/
def isWordChar (c : Char) : Bool := c.isAlphanum || c = '_'

/-- Match of the first regex alternative `\bweek\s*(\d+)\b` at the head of
`l` (the leading word boundary is checked by the caller): case-insensitive
literal `week`, optional whitespace, a maximal digit run, and a trailing word
boundary.  Returns the captured digits and the rest of the input. -/
def weekAlt (l : List Char) : Option (List Char × List Char) :=
  if (l.take 4).map Char.toLower = "week".data then
    let after := (l.drop 4).dropWhile isSpaceChar
    let digits := after.takeWhile Char.isDigit
    if digits.isEmpty then none
    else
      match after.drop digits.length with
      | [] => some (digits, [])
      | d :: t2 => if isWordChar d then none else some (digits, d :: t2)
  else none

/-- Match of the second regex alternative `\b(\d+)\b` at the head of `l`:
a maximal digit run with a trailing word boundary. -/
def bareAlt (l : List Char) : Option (List Char × List Char) :=
  match l with
  | [] => none
  | c :: _ =>
    if c.isDigit then
      let digits := l.takeWhile Char.isDigit
      match l.drop digits.length with
      | [] => some (digits, [])
      | d :: t2 => if isWordChar d then none else some (digits, d :: t2)
    else none

/-- Fuelled scan for the regex `\bweek\s*(\d+)\b|\b(\d+)\b`
(case-insensitive), returning the captured week numbers of the
non-overlapping, left-to-right matches; `prevW` records whether the previous
character was a word character (for the leading `\b`).  The fuel only makes
the recursion structural: by `weekScanF_fuel` any fuel above the input
length gives the same value. -/
def weekScanF : Nat → Bool → List Char → List (List Char)
  | 0, _, _ => []
  | fuel + 1, prevW, l =>
    match l with
    | [] => []
    | c :: t =>
      if prevW then weekScanF fuel (isWordChar c) t
      else
        match weekAlt (c :: t) with
        | some (g, rem) => g :: weekScanF fuel true rem
        | none =>
          match bareAlt (c :: t) with
          | some (g, rem) => g :: weekScanF fuel true rem
          | none => weekScanF fuel (isWordChar c) t

/-- The regex scan with always-sufficient fuel. -/
def weekScan (prevW : Bool) (l : List Char) : List (List Char) :=
  weekScanF (l.length + 1) prevW l

/-- Order-preserving de-duplication by first occurrence (the Python pattern
`if x not in acc: acc.append(x)`). -/
def pyDedup (l : List (List Char)) (acc : List (List Char)) : List (List Char) :=
  match l with
  | [] => acc
  | x :: t => if acc.contains x then pyDedup t acc else pyDedup t (acc ++ [x])

/-- Method 1 of `extract_weeks_from_scheme`: for every line containing a
pipe, the first nonempty stripped cell when it is all digits (duplicates are
kept). -/
def tableWeeksL (content : List Char) : List (List Char) :=
  (splitChar '\n' content).foldr
    (fun line acc =>
      if line.contains '|' then
        match ((splitChar '|' line).map stripL).filter (· ≠ []) with
        | p :: _ => if isDigitL p then p :: acc else acc
        | [] => acc
      else acc) []

/-- Method 2 of `extract_weeks_from_scheme`: the de-duplicated week numbers
captured by the regex scan. -/
def regexWeeksL (content : List Char) : List (List Char) :=
  pyDedup (weekScan false content) []

/-- Comparison used by `sorted(weeks, key=int)`: non-strict comparison of
numeric values, giving a stable sort. -/
def natKeyLE (a b : List Char) : Prop := digitsToNat a ≤ digitsToNat b

instance : DecidableRel natKeyLE := fun a b =>
  inferInstanceAs (Decidable (digitsToNat a ≤ digitsToNat b))

instance : IsTotal (List Char) natKeyLE :=
  ⟨fun a b => Nat.le_total (digitsToNat a) (digitsToNat b)⟩

instance : IsTrans (List Char) natKeyLE :=
  ⟨fun _ _ _ h1 h2 => Nat.le_trans h1 h2⟩

/-- `extract_weeks_from_scheme`: the table scan, else the de-duplicated regex
scan, else `["1"]`, sorted stably by numeric value. -/
def extract_weeks_from_scheme (content : String) : List String :=
  let t := tableWeeksL content.data
  let w := if t.isEmpty then regexWeeksL content.data else t
  let w := if w.isEmpty then [['1']] else w
  (List.insertionSort natKeyLE w).map (fun l => (⟨l⟩ : String))

/-- Numeric comparison of week identifier strings (the key of
`sorted(weeks, key=int)`). -/
def weekNumLE (a b : String) : Prop := digitsToNat a.data ≤ digitsToNat b.data

instance : DecidableRel weekNumLE := fun a b =>
  inferInstanceAs (Decidable (digitsToNat a.data ≤ digitsToNat b.data))

/-- Embedding of week identifiers back into strings. -/
def mkStr (l : List Char) : String := ⟨l⟩

/-- The string form of the table scan (method 1). -/
def tableWeeks (content : String) : List String :=
  (tableWeeksL content.data).map mkStr

/-! ## Retrieval engine (`tools/pinecone_exa_tools.py`) -/

/-- A parsed query dict; a `none` field models an absent key
(`'subject' in query` etc.), while `some ""` is a present-but-empty value. -/
structure Query where
  subject : Option String
  grade_level : Option String
  topic : Option String
deriving DecidableEq

/-- Pinecone match metadata; `none` models an absent key, read through the
Python `.get(key, default)` defaults. -/
structure Meta where
  grade_level : Option String := none
  content : Option String := none
  topics : Option (List String) := none
  subject : Option String := none
  country : Option String := none
deriving DecidableEq

/-- A Pinecone match as returned by `index.query`. -/
structure PMatch where
  id : String
  score : Rat
  metadata : Meta
deriving DecidableEq

/-- A serialized match of the `status="valid"` payload. -/
structure SMatch where
  id : String
  score : Rat
  topic_relevance : Nat
  metadata : Meta
deriving DecidableEq

/-- A result dict of `_validate_and_retrieve` / `_run`; `none` fields model
keys absent from the returned dict (`matches_list` models the `"matches"`
key, renamed because `matches` is reserved here). -/
structure RResult where
  status : String
  message : Option String := none
  context : Option String := none
  matches_list : Option (List SMatch) := none
  alternatives : Option (List String) := none
deriving DecidableEq

/-- The topic keywords: `query['topic'].lower().split()`. -/
def topic_keywords (topic : String) : List (List Char) :=
  splitWsL (lowerL topic.data)

/-- The topic-relevance loop: for each keyword, 1 when it occurs in the
(lowercased) content and 2 for every stored topic tag whose lowercase form
contains it. -/
def relevance (kws : List (List Char)) (contentLower : List Char)
    (tags : List (List Char)) : Nat :=
  kws.foldl
    (fun acc kw =>
      tags.foldl (fun a t => if containsSub (lowerL t) kw then a + 2 else a)
        (if containsSub contentLower kw then acc + 1 else acc))
    0

/-- The lowercased content of a match: `match["metadata"].get("content", "").lower()`. -/
def matchContentLower (m : PMatch) : List Char :=
  lowerL (m.metadata.content.getD "").data

/-- The stored topic tags of a match: `match["metadata"].get("topics", [])`. -/
def matchTags (m : PMatch) : List (List Char) :=
  (m.metadata.topics.getD []).map String.data

/-- Topic relevance of one match for the given keywords. -/
def matchRelevance (kws : List (List Char)) (m : PMatch) : Nat :=
  relevance kws (matchContentLower m) (matchTags m)

/-- Scored candidates with zero topic relevance discarded, in input order
(the append loop building `topic_filtered_matches`). -/
def scoredCandidates (topic : String) (ms : List PMatch) : List (PMatch × Nat) :=
  (ms.map (fun m => (m, matchRelevance (topic_keywords topic) m))).filter
    (fun p => 0 < p.2)

/-- The sort key relation of
`sort(key=lambda x: (topic_relevance, score), reverse=True)`: non-strict
descending lexicographic comparison, giving the stable descending sort of
Python `list.sort(..., reverse=True)`. -/
def rankGE (a b : PMatch × Nat) : Prop :=
  b.2 < a.2 ∨ (a.2 = b.2 ∧ b.1.score ≤ a.1.score)

instance : DecidableRel rankGE := fun a b =>
  inferInstanceAs (Decidable (b.2 < a.2 ∨ (a.2 = b.2 ∧ b.1.score ≤ a.1.score)))

instance : IsTotal (PMatch × Nat) rankGE := by
  constructor
  intro a b
  unfold rankGE
  rcases Nat.lt_trichotomy a.2 b.2 with h | h | h
  · exact Or.inr (Or.inl h)
  · rcases le_total b.1.score a.1.score with hs | hs
    · exact Or.inl (Or.inr ⟨h, hs⟩)
    · exact Or.inr (Or.inr ⟨h.symm, hs⟩)
  · exact Or.inl (Or.inl h)

instance : IsTrans (PMatch × Nat) rankGE := by
  constructor
  intro a b c hab hbc
  unfold rankGE at *
  rcases hab with h1 | ⟨h1, hs1⟩ <;> rcases hbc with h2 | ⟨h2, hs2⟩
  · exact Or.inl (h2.trans h1)
  · exact Or.inl (h2 ▸ h1)
  · exact Or.inl (h1 ▸ h2)
  · exact Or.inr ⟨h1.trans h2, hs2.trans hs1⟩

/-- Scoring, zero-relevance filtering, stable descending sort and top-k
truncation (`topic_filtered_matches` through `final_matches`). -/
def topicRankStage (topic : String) (ms : List PMatch) (k : Nat) :
    List (PMatch × Nat) :=
  (List.insertionSort rankGE (scoredCandidates topic ms)).take k

/-- Serialization of the final matches for the `status="valid"` payload. -/
def serializeMatch (p : PMatch × Nat) : SMatch :=
  ⟨p.1.id, p.1.score, p.2, p.1.metadata⟩

/-- The `"\n\n"`-joined context of the final matches. -/
def buildContext (final : List (PMatch × Nat)) : String :=
  ⟨List.intercalate "\n\n".data (final.map (fun p => (p.1.metadata.content.getD "").data))⟩

/-- `_validate_and_retrieve`, with the external collaborators passed as
oracles: `statsE` is the `describe_index_stats` total-vector count (or its
exception message), `embedE` the `_get_query_embedding` call (the vector
itself is irrelevant, only success or failure matters), and `queryE` the
`index.query` match list (or its exception message, which also covers the
uninitialized-index `ValueError` raised inside the same `try`).  The
embedding call happens outside any `try`, so its exception propagates
(`Except.error`); everything else resolves to a structured result. -/
def validateAndRetrieve (statsE : Except String Nat) (embedE : Except String Unit)
    (queryE : Except String (List PMatch)) (q : Query) (num_results : Nat) :
    Except String RResult :=
  match statsE with
  | .error e => .ok { status := "error", message := some ("Error checking index: " ++ e) }
  | .ok total_vectors =>
    if total_vectors = 0 then
      .ok { status := "error",
            message := some "Pinecone index is EMPTY. Please upload a PDF document first using the upload endpoint." }
    else
      match q.subject, q.grade_level, q.topic with
      | some subj, some grade, some topic =>
        let _normalized := normalize_subject subj
        match embedE with
        | .error e => .error e
        | .ok _ =>
          match queryE with
          | .error e =>
            .ok { status := "error", message := some ("Error querying Pinecone: " ++ e) }
          | .ok found =>
            let filtered := found.filter
              (fun m => grade_matches grade (m.metadata.grade_level.getD ""))
            let final := topicRankStage topic filtered num_results
            if final.isEmpty then
              .ok { status := "invalid", message := some "No relevant data found.",
                    alternatives := some [] }
            else
              .ok { status := "valid",
                    context := some (buildContext final),
                    matches_list := some (final.map serializeMatch),
                    alternatives := some [] }
      | _, _, _ =>
        .ok { status := "error",
              message := some "Query must contain keys: ['subject', 'grade_level', 'topic']" }

/-- `_run`: JSON parsing (`parsed` is the outcome of `json.loads`), then
`_validate_and_retrieve`; the top-level `except` clauses turn a JSON decode
failure and any propagated exception into `status="error"` results, so the
caller always receives a structured result. -/
def run_tool (parsed : Except Unit Query) (statsE : Except String Nat)
    (embedE : Except String Unit) (queryE : Except String (List PMatch)) : RResult :=
  match parsed with
  | .error _ =>
    { status := "error", message := some "Query must be JSON with keys: subject, grade_level, topic" }
  | .ok q =>
    match validateAndRetrieve statsE embedE queryE q 10 with
    | .ok r => r
    | .error e => { status := "error", message := some ("Unexpected error: " ++ e) }

/-- Specification-side topic relevance: the number of keyword tokens that
occur as substrings of the (lowercased) content, plus 2 for every
(keyword, stored topic tag) pair where the keyword occurs as a substring of
the lowercased tag. -/
def relevanceSpec (kws : List (List Char)) (contentLower : List Char)
    (tags : List (List Char)) : Nat :=
  kws.countP (fun kw => containsSub contentLower kw) +
    2 * (kws.map (fun kw => tags.countP (fun t => containsSub (lowerL t) kw))).sum

/-- Concrete match used by the retrieval witnesses. -/
def wMatch : PMatch :=
  ⟨"id1", 1, { grade_level := some "primary 4",
               content := some "All about Fractions today",
               topics := some ["fractions"] }⟩

/-! ## Claim theorems and supporting lemmas -/

theorem weekAlt_rem_lt {l g rem} (h : weekAlt l = some (g, rem)) :
    rem.length < l.length := by
  unfold weekAlt at h
  by_cases htake : (l.take 4).map Char.toLower = "week".data
  · rw [if_pos htake] at h
    dsimp only at h
    have hlen4 : 4 ≤ l.length := by
      have h4 := congrArg List.length htake
      simp only [List.length_map, List.length_take,
        show ("week".data).length = 4 from rfl] at h4
      omega
    generalize hA : (l.drop 4).dropWhile isSpaceChar = after at h
    have hAle : after.length ≤ l.length - 4 := by
      rw [← hA]
      calc ((l.drop 4).dropWhile isSpaceChar).length
          ≤ (l.drop 4).length := (List.dropWhile_sublist _).length_le
        _ = l.length - 4 := List.length_drop ..
    generalize hD : after.takeWhile Char.isDigit = digits at h
    by_cases hdig : digits.isEmpty
    · rw [if_pos hdig] at h; exact absurd h (by simp)
    · rw [if_neg hdig] at h
      have hdpos : 0 < digits.length := by
        cases digits with
        | nil => simp at hdig
        | cons x xs => simp
      rcases hrest : after.drop digits.length with _ | ⟨d, t2⟩ <;> rw [hrest] at h
      · cases h
        simp only [List.length_nil]
        omega
      · dsimp only at h
        by_cases hw : isWordChar d
        · rw [if_pos hw] at h; exact absurd h (by simp)
        · rw [if_neg hw] at h
          cases h
          have hlen := congrArg List.length hrest
          rw [List.length_drop] at hlen
          omega
  · rw [if_neg htake] at h; exact absurd h (by simp)

theorem bareAlt_rem_lt {l g rem} (h : bareAlt l = some (g, rem)) :
    rem.length < l.length := by
  match l with
  | [] => exact absurd h (by simp [bareAlt])
  | c :: t =>
    unfold bareAlt at h
    dsimp only at h
    by_cases hc : c.isDigit
    · rw [if_pos hc] at h
      generalize hD : (c :: t).takeWhile Char.isDigit = digits at h
      have hdpos : 0 < digits.length := by
        rw [← hD, List.takeWhile_cons_of_pos hc]; simp
      rcases hrest : (c :: t).drop digits.length with _ | ⟨d, t2⟩ <;> rw [hrest] at h
      · cases h
        simp only [List.length_nil, List.length_cons]
        omega
      · dsimp only at h
        by_cases hw : isWordChar d
        · rw [if_pos hw] at h; exact absurd h (by simp)
        · rw [if_neg hw] at h
          cases h
          have hlen := congrArg List.length hrest
          rw [List.length_drop] at hlen
          simp only [List.length_cons] at hlen ⊢
          omega
    · rw [if_neg hc] at h; exact absurd h (by simp)

theorem weekScanF_fuel : ∀ (f1 f2 : Nat) (p : Bool) (l : List Char),
    l.length < f1 → l.length < f2 → weekScanF f1 p l = weekScanF f2 p l := by
  intro f1
  induction f1 with
  | zero => intro f2 p l h1 _; omega
  | succ f ih =>
    intro f2 p l h1 h2
    match f2, l with
    | 0, l => omega
    | f2' + 1, [] => rfl
    | f2' + 1, c :: t =>
      simp only [List.length_cons] at h1 h2
      simp only [weekScanF]
      cases p with
      | true =>
        simp only [if_pos]
        exact ih f2' (isWordChar c) t (by omega) (by omega)
      | false =>
        simp only [Bool.false_eq_true, if_false]
        cases hA : weekAlt (c :: t) with
        | some gr =>
          rcases gr with ⟨g, rem⟩
          have hlt := weekAlt_rem_lt hA
          simp only [List.length_cons] at hlt
          simp only [hA]
          rw [ih f2' true rem (by omega) (by omega)]
        | none =>
          simp only [hA]
          cases hB : bareAlt (c :: t) with
          | some gr =>
            rcases gr with ⟨g, rem⟩
            have hlt := bareAlt_rem_lt hB
            simp only [List.length_cons] at hlt
            simp only [hB]
            rw [ih f2' true rem (by omega) (by omega)]
          | none =>
            simp only [hB]
            exact ih f2' (isWordChar c) t (by omega) (by omega)

theorem foldl_add_two_countP (P : List Char → Bool) :
    ∀ (tags : List (List Char)) (a : Nat),
      tags.foldl (fun a t => if P t then a + 2 else a) a = a + 2 * tags.countP P := by
  intro tags
  induction tags with
  | nil => intro a; simp
  | cons t ts ih =>
    intro a
    simp only [List.foldl_cons, List.countP_cons]
    by_cases hp : P t
    · rw [if_pos hp, ih, hp]
      simp
      omega
    · rw [if_neg hp, ih]
      simp [hp]

theorem relevance_eq_spec (contentLower : List Char) (tags : List (List Char)) :
    ∀ (kws : List (List Char)), relevance kws contentLower tags =
      relevanceSpec kws contentLower tags := by
  have haux : ∀ (kws : List (List Char)) (acc : Nat),
      kws.foldl
        (fun acc kw =>
          tags.foldl (fun a t => if containsSub (lowerL t) kw then a + 2 else a)
            (if containsSub contentLower kw then acc + 1 else acc)) acc =
      acc + relevanceSpec kws contentLower tags := by
    intro kws
    induction kws with
    | nil => intro acc; simp [relevanceSpec]
    | cons kw kws ih =>
      intro acc
      simp only [List.foldl_cons]
      rw [foldl_add_two_countP, ih]
      simp only [relevanceSpec, List.countP_cons, List.map_cons, List.sum_cons]
      by_cases hc : containsSub contentLower kw
      · rw [if_pos hc, hc]
        simp
        omega
      · rw [if_neg hc]
        simp [hc]
        omega
  intro kws
  unfold relevance
  rw [haux]
  omega

/-- C1: whenever `describe_index_stats` reports a total vector count of 0,
`_validate_and_retrieve` returns `status="error"` with the ingest-first
message, for every query dict (missing or empty fields included) and every
behaviour of the embedding and search calls. -/
theorem C1_empty_index_always_error (embedE : Except String Unit)
    (queryE : Except String (List PMatch)) (q : Query) (k : Nat) :
    validateAndRetrieve (.ok 0) embedE queryE q k =
      .ok { status := "error",
            message := some "Pinecone index is EMPTY. Please upload a PDF document first using the upload endpoint." } :=
  rfl

/-- C2 counterexample: the query with all three keys present but an empty
`subject` is not rejected; with a nonempty index and a search returning no
matches the result is `status="invalid"`, not `status="error"`. -/
theorem C2_counterexample :
    validateAndRetrieve (.ok 5) (.ok ()) (.ok [])
        ⟨some "", some "primary 4", some "fractions"⟩ 10 =
      .ok { status := "invalid", message := some "No relevant data found.",
            alternatives := some [] } ∧
    "invalid" ≠ "error" :=
  ⟨rfl, by decide⟩

/-- C2 amended: only a missing key (not a present-but-empty value) is
rejected, and the rejection comes after the index-stats check but before the
embedding and search calls — the result is the same for every behaviour of
those two oracles. -/
theorem C2_amended_missing_key_error (n : Nat) (embedE : Except String Unit)
    (queryE : Except String (List PMatch)) (q : Query) (k : Nat) (hn : n ≠ 0)
    (hmiss : q.subject = none ∨ q.grade_level = none ∨ q.topic = none) :
    validateAndRetrieve (.ok n) embedE queryE q k =
      .ok { status := "error",
            message := some "Query must contain keys: ['subject', 'grade_level', 'topic']" } := by
  rcases q with ⟨s, g, t⟩
  cases s <;> cases g <;> cases t <;>
    simp only [validateAndRetrieve, if_neg hn] <;>
    simp at hmiss

/-- C2 witness for the amended claim, at a concrete missing-key query. -/
theorem C2_amended_witness :
    validateAndRetrieve (.ok 3) (.error "down") (.error "down too")
        ⟨none, some "primary 4", some "fractions"⟩ 10 =
      .ok { status := "error",
            message := some "Query must contain keys: ['subject', 'grade_level', 'topic']" } :=
  C2_amended_missing_key_error 3 (.error "down") (.error "down too")
    ⟨none, some "primary 4", some "fractions"⟩ 10 (by decide) (Or.inl rfl)

/-- C3 counterexample: `" kg"` and `"kg"` are equal after trimming and
lowercasing, yet `_grade_matches` returns `false` — the equality
short-circuit is exact string equality, and no grade number can be
extracted. -/
theorem C3_counterexample :
    stripL (lowerL " kg".data) = stripL (lowerL "kg".data) ∧
    grade_matches " kg" "kg" = false :=
  ⟨rfl, rfl⟩

/-- C3 amended: full characterization of `_grade_matches`.  The short-circuit
is exact equality (no trimming or lowercasing); otherwise a number is
extracted from the query grade (digits first, else the words one..nine,
`false` when absent); a hyphenated stored grade matches iff two digit runs
are found, both nonzero (Python truthiness), bracketing the query number; a
non-hyphenated one iff a nonzero stored number equals it; every stored-side
extraction failure (and a zero value) yields `false`. -/
theorem C3_amended_grade_matches_characterization (u s : String) :
    (u = s → grade_matches u s = true) ∧
    (u ≠ s → extract_grade_number u = none → grade_matches u s = false) ∧
    (∀ un, extract_grade_number u = some un →
      (s.data.contains '-' = true →
        (∀ a b, extract_grade_range s = some (a, b) → a ≠ 0 → b ≠ 0 →
          (grade_matches u s = true ↔ (u = s ∨ (a ≤ un ∧ un ≤ b)))) ∧
        (extract_grade_range s = none → u ≠ s → grade_matches u s = false) ∧
        (∀ a b, extract_grade_range s = some (a, b) → (a = 0 ∨ b = 0) → u ≠ s →
          grade_matches u s = false)) ∧
      (s.data.contains '-' = false →
        (∀ sn, extract_grade_number s = some sn → sn ≠ 0 →
          (grade_matches u s = true ↔ (u = s ∨ un = sn))) ∧
        (extract_grade_number s = none → u ≠ s → grade_matches u s = false) ∧
        (extract_grade_number s = some 0 → u ≠ s → grade_matches u s = false))) := by
  by_cases hus : u = s
  · refine ⟨fun _ => by simp [grade_matches, hus], fun h => absurd hus h, ?_⟩
    intro un hun
    have htrue : grade_matches u s = true := by simp [grade_matches, hus]
    exact ⟨fun _ =>
        ⟨fun a b _ _ _ => iff_of_true htrue (Or.inl hus),
         fun _ h => absurd hus h, fun a b _ _ h => absurd hus h⟩,
      fun _ =>
        ⟨fun sn _ _ => iff_of_true htrue (Or.inl hus),
         fun _ h => absurd hus h, fun _ h => absurd hus h⟩⟩
  · have hbase : grade_matches u s =
        match extract_grade_number u with
        | none => false
        | some un =>
          if s.data.contains '-' then
            match extract_grade_range s with
            | some (a, b) => if a ≠ 0 ∧ b ≠ 0 then decide (a ≤ un ∧ un ≤ b) else false
            | none => false
          else
            match extract_grade_number s with
            | some sn => if sn ≠ 0 then decide (un = sn) else false
            | none => false := by
      rw [grade_matches, if_neg hus]
    refine ⟨fun h => absurd h hus, fun _ hnone => by rw [hbase, hnone], ?_⟩
    intro un hun
    rw [hun] at hbase
    dsimp only at hbase
    constructor
    · intro hd
      rw [if_pos hd] at hbase
      refine ⟨?_, ?_, ?_⟩
      · intro a b hr ha hb
        rw [hr] at hbase
        dsimp only at hbase
        rw [if_pos ⟨ha, hb⟩] at hbase
        rw [hbase]
        simp [hus]
      · intro hr _
        rw [hr] at hbase
        exact hbase
      · intro a b hr hzero _
        rw [hr] at hbase
        dsimp only at hbase
        have hnz : ¬(a ≠ 0 ∧ b ≠ 0) := by
          rcases hzero with h | h <;> simp [h]
        rw [if_neg hnz] at hbase
        exact hbase
    · intro hd
      rw [if_neg (fun h => Bool.false_ne_true (hd ▸ h))] at hbase
      refine ⟨?_, ?_, ?_⟩
      · intro sn hsn hnz
        rw [hsn] at hbase
        dsimp only at hbase
        rw [if_pos hnz] at hbase
        rw [hbase]
        simp [hus]
      · intro hnone _
        rw [hnone] at hbase
        exact hbase
      · intro hzero _
        rw [hzero] at hbase
        dsimp only at hbase
        simp at hbase
        exact hbase

/-- C3 witness for the amended claim: the three concrete grade-matching
examples of the specification. -/
theorem C3_amended_witness :
    grade_matches "primary 4" "primary 4-6" = true ∧
    grade_matches "primary 7" "primary 4-6" = false ∧
    grade_matches "primary four" "primary 4" = true := by
  refine ⟨?_, ?_, ?_⟩
  · exact ((((C3_amended_grade_matches_characterization "primary 4" "primary 4-6").2.2
      4 (by decide)).1 (by decide)).1 4 6 (by decide) (by decide) (by decide)).mpr
      (Or.inr ⟨by decide, by decide⟩)
  · have h := ((((C3_amended_grade_matches_characterization "primary 7" "primary 4-6").2.2
      7 (by decide)).1 (by decide)).1 4 6 (by decide) (by decide) (by decide))
    cases hb : grade_matches "primary 7" "primary 4-6"
    · rfl
    · rcases h.mp hb with h' | ⟨_, h'⟩
      · exact absurd h' (by decide)
      · exact absurd h' (by decide)
  · exact ((((C3_amended_grade_matches_characterization "primary four" "primary 4").2.2
      4 (by decide)).2 (by decide)).1 4 (by decide) (by decide)).mpr (Or.inr rfl)

/-- C4: on any candidate list the topic stage assigns every kept candidate
the relevance score of the specification formula (1 per keyword occurring in
the content, 2 per keyword-tag occurrence), discards zero-relevance
candidates, orders by non-strict descending lexicographic
(topic_relevance, similarity) comparison, and keeps at most the first
`top_k` of a sorted permutation of the scored survivors. -/
theorem C4_topic_relevance_ranking (topic : String) (ms : List PMatch) (k : Nat) :
    (∀ p ∈ topicRankStage topic ms k,
        p.2 = relevanceSpec (topic_keywords topic) (matchContentLower p.1) (matchTags p.1) ∧
        0 < p.2) ∧
    (topicRankStage topic ms k).Sorted rankGE ∧
    ∃ l, (scoredCandidates topic ms).Perm l ∧ l.Sorted rankGE ∧
      topicRankStage topic ms k = l.take k := by
  refine ⟨?_, ?_, ?_⟩
  · intro p hp
    have hp2 : p ∈ List.insertionSort rankGE (scoredCandidates topic ms) :=
      List.mem_of_mem_take hp
    have hp3 : p ∈ scoredCandidates topic ms :=
      (List.perm_insertionSort rankGE _).mem_iff.mp hp2
    unfold scoredCandidates at hp3
    rw [List.mem_filter] at hp3
    obtain ⟨hmem, hpos⟩ := hp3
    rw [List.mem_map] at hmem
    obtain ⟨m, _, hm⟩ := hmem
    subst hm
    refine ⟨?_, by simpa using hpos⟩
    exact relevance_eq_spec _ _ _
  · exact List.Pairwise.sublist (List.take_sublist k _)
      (List.sorted_insertionSort rankGE _)
  · exact ⟨List.insertionSort rankGE (scoredCandidates topic ms),
      (List.perm_insertionSort rankGE _).symm,
      List.sorted_insertionSort rankGE _, rfl⟩

/-- C4 witness: the single-candidate stage keeps the candidate with score 3
(one content occurrence plus one weighted tag occurrence of `fractions`),
and the specification formula gives the same value. -/
theorem C4_witness :
    (wMatch, 3) ∈ topicRankStage "fractions" [wMatch] 10 ∧
    3 = relevanceSpec (topic_keywords "fractions") (matchContentLower wMatch)
          (matchTags wMatch) ∧
    0 < 3 := by
  have hm : (wMatch, 3) ∈ topicRankStage "fractions" [wMatch] 10 := by decide
  have h := (C4_topic_relevance_ranking "fractions" [wMatch] 10).1 (wMatch, 3) hm
  exact ⟨hm, h.1, h.2⟩

/-- C5: with a well-formed query against a nonempty index and a successful
search, the result is `status="valid"` carrying the double-newline join of
the ranked final candidates' contents and their ordered serialized match
list (id, score, topic relevance, full metadata) when at least one candidate
survives grade and topic filtering, and `status="invalid"` with an empty
alternatives list — and no context carried at all (the `"context"` key is
absent from the Python dict, modelled as `none`) — when none survives. -/
theorem C5_result_assembly (n : Nat) (ms : List PMatch) (a b c : String)
    (k : Nat) (hn : n ≠ 0) :
    (topicRankStage c (ms.filter
        (fun m => grade_matches b (m.metadata.grade_level.getD ""))) k = [] →
      validateAndRetrieve (.ok n) (.ok ()) (.ok ms) ⟨some a, some b, some c⟩ k =
        .ok { status := "invalid", message := some "No relevant data found.",
              alternatives := some [] }) ∧
    (topicRankStage c (ms.filter
        (fun m => grade_matches b (m.metadata.grade_level.getD ""))) k ≠ [] →
      validateAndRetrieve (.ok n) (.ok ()) (.ok ms) ⟨some a, some b, some c⟩ k =
        .ok { status := "valid",
              context := some (buildContext (topicRankStage c (ms.filter
                (fun m => grade_matches b (m.metadata.grade_level.getD ""))) k)),
              matches_list := some ((topicRankStage c (ms.filter
                (fun m => grade_matches b (m.metadata.grade_level.getD ""))) k).map
                  serializeMatch),
              alternatives := some [] }) := by
  simp only [validateAndRetrieve, if_neg hn]
  constructor
  · intro h
    rw [h]
    rfl
  · intro h
    rw [if_neg (by simpa using h)]

/-- C5 witness: one stored chunk surviving both filters yields the valid
result with its content as the context and its serialized match. -/
theorem C5_witness :
    validateAndRetrieve (.ok 1) (.ok ()) (.ok [wMatch])
        ⟨some "math", some "primary 4", some "fractions"⟩ 10 =
      .ok { status := "valid",
            context := some "All about Fractions today",
            matches_list := some [⟨"id1", 1, 3, wMatch.metadata⟩],
            alternatives := some [] } := by
  have h := (C5_result_assembly 1 [wMatch] "math" "primary 4" "fractions" 10
    (by decide)).2 (by decide)
  rw [h]
  rfl

theorem findIdx_eq_none_iff (sub : List Char) :
    ∀ s, findIdx sub s = none ↔ ∀ i, sub.isPrefixOf (s.drop i) = false := by
  intro s
  induction s with
  | nil =>
    simp only [findIdx]
    by_cases hp : sub.isPrefixOf ([] : List Char)
    · rw [if_pos hp]
      constructor
      · intro h; cases h
      · intro h
        have h0 := h 0
        simp only [List.drop_zero] at h0
        rw [h0] at hp
        exact absurd hp Bool.false_ne_true
    · rw [if_neg hp]
      constructor
      · intro _ i
        rw [List.drop_nil]
        exact Bool.eq_false_iff.mpr hp
      · intro _; rfl
  | cons c t ih =>
    simp only [findIdx]
    by_cases hp : sub.isPrefixOf (c :: t)
    · rw [if_pos hp]
      constructor
      · intro h; cases h
      · intro h
        have h0 := h 0
        simp only [List.drop_zero] at h0
        rw [h0] at hp
        exact absurd hp Bool.false_ne_true
    · rw [if_neg hp]
      constructor
      · intro h i
        have hnone : findIdx sub t = none := by
          cases hf : findIdx sub t
          · rfl
          · rw [hf] at h; cases h
        match i with
        | 0 => simpa using Bool.eq_false_iff.mpr hp
        | i + 1 => simpa using ih.mp hnone i
      · intro h
        have hnone : findIdx sub t = none := ih.mpr (fun i => by simpa using h (i + 1))
        rw [hnone]; rfl

theorem findIdx_eq_some_iff (sub : List Char) :
    ∀ s i, findIdx sub s = some i ↔
      (sub.isPrefixOf (s.drop i) = true ∧
        ∀ j, j < i → sub.isPrefixOf (s.drop j) = false) := by
  intro s
  induction s with
  | nil =>
    intro i
    simp only [findIdx]
    by_cases hp : sub.isPrefixOf ([] : List Char)
    · rw [if_pos hp]
      constructor
      · intro h
        cases h
        exact ⟨by simpa using hp, fun j hj => absurd hj (Nat.not_lt_zero j)⟩
      · rintro ⟨h1, h2⟩
        match i with
        | 0 => rfl
        | i + 1 => exact absurd (h2 0 (Nat.succ_pos i)) (by simp [hp])
    · rw [if_neg hp]
      constructor
      · intro h; cases h
      · rintro ⟨h1, _⟩
        rw [List.drop_nil] at h1
        exact absurd h1 hp
  | cons c t ih =>
    intro i
    simp only [findIdx]
    by_cases hp : sub.isPrefixOf (c :: t)
    · rw [if_pos hp]
      constructor
      · intro h
        cases h
        exact ⟨by simpa using hp, fun j hj => absurd hj (Nat.not_lt_zero j)⟩
      · rintro ⟨h1, h2⟩
        match i with
        | 0 => rfl
        | i + 1 => exact absurd (h2 0 (Nat.succ_pos i)) (by simp [hp])
    · rw [if_neg hp]
      constructor
      · intro h
        cases hf : findIdx sub t with
        | none => rw [hf] at h; cases h
        | some d =>
          rw [hf] at h
          simp only [Option.map_some', Option.some.injEq] at h
          subst h
          obtain ⟨g1, g2⟩ := (ih d).mp hf
          refine ⟨by simpa using g1, ?_⟩
          intro j hj
          match j with
          | 0 => simpa using Bool.eq_false_iff.mpr hp
          | j + 1 => simpa using g2 j (by omega)
      · rintro ⟨h1, h2⟩
        match i with
        | 0 => exact absurd (by simpa using h1) hp
        | i + 1 =>
          have hsome : findIdx sub t = some i :=
            (ih i).mpr ⟨by simpa using h1,
              fun j hj => by simpa using h2 (j + 1) (by omega)⟩
          rw [hsome]; rfl

theorem findIdxFrom_eq_none_iff (sub s : List Char) (start : Nat) :
    findIdxFrom sub s start = none ↔
      ∀ j, start ≤ j → sub.isPrefixOf (s.drop j) = false := by
  unfold findIdxFrom
  constructor
  · intro h j hj
    have hnone : findIdx sub (s.drop start) = none := by
      cases hf : findIdx sub (s.drop start)
      · rfl
      · rw [hf] at h; cases h
    have hg := (findIdx_eq_none_iff sub (s.drop start)).mp hnone (j - start)
    rwa [List.drop_drop, Nat.add_sub_cancel' hj] at hg
  · intro h
    have hnone : findIdx sub (s.drop start) = none := by
      apply (findIdx_eq_none_iff sub (s.drop start)).mpr
      intro i
      rw [List.drop_drop]
      exact h (start + i) (Nat.le_add_right ..)
    rw [hnone]; rfl

theorem findIdxFrom_eq_some_iff (sub s : List Char) (start i : Nat) :
    findIdxFrom sub s start = some i ↔
      (start ≤ i ∧ sub.isPrefixOf (s.drop i) = true ∧
        ∀ j, start ≤ j → j < i → sub.isPrefixOf (s.drop j) = false) := by
  unfold findIdxFrom
  constructor
  · intro h
    cases hf : findIdx sub (s.drop start) with
    | none => rw [hf] at h; cases h
    | some d =>
      rw [hf] at h
      simp only [Option.map_some', Option.some.injEq] at h
      subst h
      obtain ⟨g1, g2⟩ := (findIdx_eq_some_iff sub (s.drop start) d).mp hf
      refine ⟨Nat.le_add_left .., ?_, ?_⟩
      · rw [List.drop_drop] at g1
        rwa [Nat.add_comm] at g1
      · intro j hj1 hj2
        have hg := g2 (j - start) (by omega)
        rwa [List.drop_drop, Nat.add_sub_cancel' hj1] at hg
  · rintro ⟨h0, h1, h2⟩
    have hsome : findIdx sub (s.drop start) = some (i - start) := by
      apply (findIdx_eq_some_iff sub (s.drop start) (i - start)).mpr
      refine ⟨?_, ?_⟩
      · rwa [List.drop_drop, Nat.add_sub_cancel' h0]
      · intro j hj
        rw [List.drop_drop]
        exact h2 (start + j) (Nat.le_add_right ..) (by omega)
    rw [hsome]
    simp [Nat.sub_add_cancel h0]

theorem isPrefixOf_drop_false_of_ge {sub l : List Char} {i : Nat} (hs : sub ≠ [])
    (hi : l.length ≤ i) : sub.isPrefixOf (l.drop i) = false := by
  rw [List.drop_eq_nil_of_le hi]
  cases sub with
  | nil => exact absurd rfl hs
  | cons c t => rfl

/-- C7: `extract_week_content` returns the empty string when
`"WEEK {week}"` does not occur in the content; when its first occurrence is
at `p`, it returns the text from `p` to the end when no `"WEEK "` occurs at
or after `p + |marker|`, and the text from `p` up to (excluding) the first
such occurrence otherwise. -/
theorem C7_extract_week_content_slicing (content week : String) :
    ((∀ i, i < content.data.length →
        ("WEEK ".data ++ week.data).isPrefixOf (content.data.drop i) = false) →
      extract_week_content content week = "") ∧
    (∀ p, ("WEEK ".data ++ week.data).isPrefixOf (content.data.drop p) = true →
      (∀ j, j < p → ("WEEK ".data ++ week.data).isPrefixOf (content.data.drop j) = false) →
      ((∀ i, p + ("WEEK ".data ++ week.data).length ≤ i → i < content.data.length →
          "WEEK ".data.isPrefixOf (content.data.drop i) = false) →
        extract_week_content content week = ⟨content.data.drop p⟩) ∧
      (∀ e, p + ("WEEK ".data ++ week.data).length ≤ e →
          "WEEK ".data.isPrefixOf (content.data.drop e) = true →
          (∀ j, p + ("WEEK ".data ++ week.data).length ≤ j → j < e →
            "WEEK ".data.isPrefixOf (content.data.drop j) = false) →
        extract_week_content content week = ⟨(content.data.drop p).take (e - p)⟩)) := by
  have hdr_ne : ("WEEK ".data ++ week.data) ≠ [] := by simp
  have wk_ne : ("WEEK ".data : List Char) ≠ [] := by simp
  constructor
  · intro h
    have hnone : findIdx ("WEEK ".data ++ week.data) content.data = none := by
      apply (findIdx_eq_none_iff _ _).mpr
      intro i
      by_cases hi : i < content.data.length
      · exact h i hi
      · exact isPrefixOf_drop_false_of_ge hdr_ne (by omega)
    unfold extract_week_content
    dsimp only
    rw [hnone]
  · intro p h1 h2
    have hsome : findIdx ("WEEK ".data ++ week.data) content.data = some p :=
      (findIdx_eq_some_iff _ _ _).mpr ⟨h1, h2⟩
    constructor
    · intro h3
      have hnone2 : findIdxFrom "WEEK ".data content.data
          (p + ("WEEK ".data ++ week.data).length) = none := by
        apply (findIdxFrom_eq_none_iff ..).mpr
        intro j hj
        by_cases hjlen : j < content.data.length
        · exact h3 j hj hjlen
        · exact isPrefixOf_drop_false_of_ge wk_ne (by omega)
      unfold extract_week_content
      dsimp only
      rw [hsome]
      dsimp only
      rw [hnone2]
    · intro e he1 he2 he3
      have hsome2 : findIdxFrom "WEEK ".data content.data
          (p + ("WEEK ".data ++ week.data).length) = some e :=
        (findIdxFrom_eq_some_iff ..).mpr ⟨he1, he2, he3⟩
      unfold extract_week_content
      dsimp only
      rw [hsome]
      dsimp only
      rw [hsome2]

/-- C7 witness: the specification's concrete two-week document, sliced at
both weeks through the slicing theorem. -/
theorem C7_witness :
    extract_week_content "WEEK 1\nfoo\nWEEK 2\nbar" "1" = "WEEK 1\nfoo\n" ∧
    extract_week_content "WEEK 1\nfoo\nWEEK 2\nbar" "2" = "WEEK 2\nbar" := by
  constructor
  · have h := ((C7_extract_week_content_slicing "WEEK 1\nfoo\nWEEK 2\nbar" "1").2
      0 (by decide) (by decide)).2 11 (by decide) (by decide) (by decide)
    rw [h]
    rfl
  · have h := ((C7_extract_week_content_slicing "WEEK 1\nfoo\nWEEK 2\nbar" "2").2
      11 (by decide) (by decide)).1 (by decide)
    rw [h]
    rfl

/-- C8 counterexample: `extract_week_topic` is not total — for a week string
without digit characters the second strategy performs a Python
`str.split` with an empty separator, raising `ValueError`; and the first
strategy keys on the week digits appearing between pipes anywhere in the
line, not on the first cell, returning `"Decimals"` from a row whose first
cell is `"2"`. -/
theorem C8_counterexample :
    extract_week_topic "anything" "one" = .error "ValueError: empty separator" ∧
    extract_week_topic "| 2 | Decimals | 1 |" "1" = .ok "Decimals" :=
  ⟨rfl, rfl⟩

theorem weekTopicLoose_ok {cw : List Char} (hcw : cw ≠ []) :
    ∀ lines : List (List Char), ∃ o, weekTopicLoose cw lines = .ok o := by
  intro lines
  induction lines with
  | nil => exact ⟨none, rfl⟩
  | cons l ls ih =>
    unfold weekTopicLoose
    by_cases h1 : containsSub l cw
    · rw [if_pos h1, if_neg (by simpa using hcw)]
      cases hf : findIdx cw l
      · exact ih
      · dsimp only
        split
        · split
          · exact ⟨_, rfl⟩
          · exact ih
        · split
          · exact ⟨_, rfl⟩
          · exact ih
    · rw [if_neg h1]
      exact ih

/-- C8 amended: `extract_week_topic` never raises when the week string
contains at least one digit character (the strategy chain then always
resolves, down to the `"General Topic"` fallback); and the first strategy
fires on any line containing the pipe-bounded week digits, returning that
line's second nonempty cell (witnessed by the specification's own table
example in `C8_amended_witness`). -/
theorem C8_amended_total_on_digit_weeks (content week : String)
    (hw : week.data.filter Char.isDigit ≠ []) :
    ∃ t, extract_week_topic content week = .ok t := by
  unfold extract_week_topic
  dsimp only
  cases h1 : weekTopicRows (week.data.filter Char.isDigit)
      (splitChar '\n' content.data) with
  | some t => exact ⟨⟨t⟩, rfl⟩
  | none =>
    obtain ⟨o, ho⟩ := weekTopicLoose_ok hw (splitChar '\n' content.data)
    rw [ho]
    cases o with
    | some t => exact ⟨⟨t⟩, rfl⟩
    | none =>
      dsimp only
      by_cases hc : containsSub content.data "TOPIC:".data
      · rw [if_pos hc]
        cases hfind : (splitChar '\n' content.data).find?
            (fun l => containsSub l "TOPIC:".data)
        · exact ⟨_, rfl⟩
        · exact ⟨_, rfl⟩
      · rw [if_neg hc]
        exact ⟨_, rfl⟩

/-- C8 witness: the specification's table example, through the amended
theorem. -/
theorem C8_amended_witness :
    ∃ t, extract_week_topic "| 1 | Fractions | ... |\n| 2 | Decimals | ... |" "1" = .ok t :=
  C8_amended_total_on_digit_weeks "| 1 | Fractions | ... |\n| 2 | Decimals | ... |" "1"
    (by decide)

/-- C6: every exception of the index client or the embedding provider is
converted into a `status="error"` result at the tool boundary — whenever any
oracle fails the caller of `_run` still receives a structured result whose
status is `"error"` (never a propagated exception, since `run_tool` is a
total function into results), and the exception that actually fires has its
message embedded in the result: stats failures as `"Error checking index:"`,
embedding failures (which propagate out of `_validate_and_retrieve` into the
catch-all of `_run`) as `"Unexpected error:"`, and search failures as
`"Error querying Pinecone:"`. -/
theorem C6_upstream_exceptions_contained (parsed : Except Unit Query)
    (statsE : Except String Nat) (embedE : Except String Unit)
    (queryE : Except String (List PMatch)) :
    (((∃ m, statsE = .error m) ∨ (∃ m, embedE = .error m) ∨ (∃ m, queryE = .error m)) →
      (run_tool parsed statsE embedE queryE).status = "error") ∧
    (∀ m q, parsed = .ok q → statsE = .error m →
      run_tool parsed statsE embedE queryE =
        { status := "error", message := some ("Error checking index: " ++ m) }) ∧
    (∀ m n a b c, parsed = .ok ⟨some a, some b, some c⟩ → statsE = .ok n → n ≠ 0 →
      embedE = .error m →
      run_tool parsed statsE embedE queryE =
        { status := "error", message := some ("Unexpected error: " ++ m) }) ∧
    (∀ m n a b c, parsed = .ok ⟨some a, some b, some c⟩ → statsE = .ok n → n ≠ 0 →
      embedE = .ok () → queryE = .error m →
      run_tool parsed statsE embedE queryE =
        { status := "error", message := some ("Error querying Pinecone: " ++ m) }) := by
  refine ⟨?_, ?_, ?_, ?_⟩
  · intro h
    rcases parsed with _ | ⟨s, g, t⟩
    · rfl
    · rcases statsE with m | n
      · rfl
      · by_cases hn : n = 0
        · subst hn; rfl
        · rcases s with _ | s
          · simp [run_tool, validateAndRetrieve, if_neg hn]
          · rcases g with _ | g
            · simp [run_tool, validateAndRetrieve, if_neg hn]
            · rcases t with _ | t
              · simp [run_tool, validateAndRetrieve, if_neg hn]
              · rcases embedE with m | u
                · simp [run_tool, validateAndRetrieve, if_neg hn]
                · rcases queryE with m | found
                  · simp [run_tool, validateAndRetrieve, if_neg hn]
                  · rcases h with ⟨m, hm⟩ | ⟨m, hm⟩ | ⟨m, hm⟩ <;> cases hm
  · intro m q hp hs
    subst hp; subst hs
    rfl
  · intro m n a b c hp hs hn he
    subst hp; subst hs; subst he
    simp [run_tool, validateAndRetrieve, if_neg hn]
  · intro m n a b c hp hs hn he hq
    subst hp; subst hs; subst he; subst hq
    simp [run_tool, validateAndRetrieve, if_neg hn]

/-- C6 witness: a concrete stats-call failure surfaces as a structured
error result carrying the exception message. -/
theorem C6_witness :
    (run_tool (.ok ⟨some "math", some "primary 4", some "fractions"⟩)
        (.error "connection reset") (.ok ()) (.ok [])).status = "error" ∧
    run_tool (.ok ⟨some "math", some "primary 4", some "fractions"⟩)
        (.error "connection reset") (.ok ()) (.ok []) =
      { status := "error", message := some ("Error checking index: " ++ "connection reset") } := by
  refine ⟨?_, ?_⟩
  · exact (C6_upstream_exceptions_contained _ _ _ _).1 (Or.inl ⟨"connection reset", rfl⟩)
  · exact (C6_upstream_exceptions_contained _ _ _ _).2.1 "connection reset"
      ⟨some "math", some "primary 4", some "fractions"⟩ rfl rfl

/-- C9 counterexample: the table scan keeps duplicate week identifiers, so
`extract_weeks_from_scheme` does not return distinct identifiers. -/
theorem C9_counterexample :
    extract_weeks_from_scheme "| 1 | a |\n| 1 | b |" = ["1", "1"] ∧
    ¬(extract_weeks_from_scheme "| 1 | a |\n| 1 | b |").Nodup :=
  ⟨rfl, by decide⟩

theorem pyDedup_nodup : ∀ (l acc : List (List Char)), acc.Nodup → (pyDedup l acc).Nodup := by
  intro l
  induction l with
  | nil => intro acc h; exact h
  | cons x t ih =>
    intro acc h
    unfold pyDedup
    by_cases hx : acc.contains x
    · rw [if_pos hx]
      exact ih acc h
    · rw [if_neg hx]
      refine ih _ ?_
      have hxm : x ∉ acc := by simpa using hx
      simp [List.nodup_append, h, hxm]

/-- Numeric comparison of week identifier strings (the key of
`sorted(weeks, key=int)`). -/
theorem mkStr_injective : Function.Injective mkStr :=
  fun _ _ h => congrArg String.data h

theorem sortMap_ne_nil {w : List (List Char)} (hw : w ≠ []) :
    (List.insertionSort natKeyLE w).map mkStr ≠ [] := by
  intro h
  rw [List.map_eq_nil_iff] at h
  have hperm := List.perm_insertionSort natKeyLE w
  rw [h] at hperm
  exact hw hperm.symm.eq_nil

theorem sortMap_sorted (w : List (List Char)) :
    ((List.insertionSort natKeyLE w).map mkStr).Sorted weekNumLE :=
  List.Pairwise.map mkStr (fun _ _ h => h) (List.sorted_insertionSort natKeyLE w)

theorem sortMap_nodup {w : List (List Char)} (h : w.Nodup) :
    ((List.insertionSort natKeyLE w).map mkStr).Nodup :=
  List.Nodup.map mkStr_injective ((List.perm_insertionSort natKeyLE w).symm.nodup h)

/-- C9 amended: `extract_weeks_from_scheme` always returns a nonempty,
numerically (stably) sorted list; when the table scan finds rows it returns
exactly those identifiers, duplicates retained; only the regex fallback
de-duplicates (and the final `["1"]` default is trivially duplicate-free). -/
theorem C9_amended_weeks_characterization (content : String) :
    extract_weeks_from_scheme content ≠ [] ∧
    (extract_weeks_from_scheme content).Sorted weekNumLE ∧
    (tableWeeksL content.data ≠ [] →
      (extract_weeks_from_scheme content).Perm (tableWeeks content)) ∧
    (tableWeeksL content.data = [] → (extract_weeks_from_scheme content).Nodup) := by
  unfold extract_weeks_from_scheme
  dsimp only
  by_cases ht : (tableWeeksL content.data).isEmpty
  · rw [if_pos ht]
    have htn : tableWeeksL content.data = [] := List.isEmpty_iff.mp ht
    have hnd : (regexWeeksL content.data).Nodup := pyDedup_nodup _ [] List.nodup_nil
    by_cases hw : (regexWeeksL content.data).isEmpty
    · rw [if_pos hw]
      exact ⟨by decide, by decide, fun h => absurd htn h, fun _ => by decide⟩
    · rw [if_neg hw]
      refine ⟨?_, sortMap_sorted _, fun h => absurd htn h, fun _ => sortMap_nodup hnd⟩
      exact sortMap_ne_nil (fun h => hw (List.isEmpty_iff.mpr h))
  · rw [if_neg ht]
    have htn : tableWeeksL content.data ≠ [] := fun h => ht (List.isEmpty_iff.mpr h)
    rw [if_neg ht]
    refine ⟨sortMap_ne_nil htn, sortMap_sorted _, fun _ => ?_,
      fun h => absurd h htn⟩
    exact (List.perm_insertionSort natKeyLE _).map mkStr

/-- C9 witness: the empty scheme yields exactly `["1"]`, and (through the
amended theorem applied with an empty table scan) a duplicate-free result. -/
theorem C9_witness :
    extract_weeks_from_scheme "" = ["1"] ∧ (extract_weeks_from_scheme "").Nodup :=
  ⟨rfl, (C9_amended_weeks_characterization "").2.2.2 rfl⟩

/-- C10: idempotence of the subject normalizer on the keys and values of the
(spec-modelled) alias table. -/
theorem C10_normalize_subject_idempotent (s : String)
    (hs : s ∈ subject_aliases.map Prod.fst ∨ s ∈ subject_aliases.map Prod.snd) :
    normalize_subject (normalize_subject s) = normalize_subject s := by
  rcases hs with h | h <;> simp [subject_aliases] at h <;> subst h <;> rfl

/-- C10 witness at the attested alias key. -/
theorem C10_witness :
    normalize_subject (normalize_subject "math") = normalize_subject "math" :=
  C10_normalize_subject_idempotent "math" (Or.inl (by simp [subject_aliases]))

end Curriculum
